import Mathlib

/-!
Verification development for the GDIVIR cross-temporal region-matching
subsystem.  The Python source (pandas pipelines) is shallowly embedded:
strings are `List Char` / `String`, census tables are association lists,
pandas `NaN` / raised exceptions are modelled with `Option` (`none` =
null / error), and machine floats holding integral census counts are
modelled with `Nat` / `Int` (shares with `ℚ`).
-/

namespace GDIVIR

/-! ### Text normalizer (`src/src/gdivir/data_cleaner/general.py`)

Characters are written via `Char.ofNat` code points; the comments give the
character they stand for in the source.  A pandas `Series.str` operation is
elementwise, so each step is embedded as a function on one string
(`List Char`). -/

/-- Source `INVISIBLE_CHARS` from `general.py`: zero-width space, soft hyphen,
right-to-left mark, pop-directional-format, left-to-right embedding, BOM. -/
def INVISIBLE_CHARS : List Char :=
  [Char.ofNat 8203, Char.ofNat 173, Char.ofNat 8207,
   Char.ofNat 8236, Char.ofNat 8234, Char.ofNat 65279]

/-- Source `UNWANTED_SYMBOLS` from `general.py`, as the characters the regex
character class actually removes (the escaped dash and star are the literal
dash and star). -/
def UNWANTED_SYMBOLS : List Char :=
  [Char.ofNat 10, Char.ofNat 13, Char.ofNat 9,    -- newline, CR, tab
   Char.ofNat 8230,                               -- horizontal ellipsis
   Char.ofNat 1600,                               -- tatweel
   Char.ofNat 95, Char.ofNat 45,                  -- underscore, dash
   Char.ofNat 8226, Char.ofNat 42,                -- bullet, star
   Char.ofNat 96, Char.ofNat 34, Char.ofNat 39,   -- backtick and quotes
   Char.ofNat 171, Char.ofNat 187,                -- guillemets
   Char.ofNat 46, Char.ofNat 44, Char.ofNat 59, Char.ofNat 58]  -- . , ; :

/-- The nine Arabic-to-Farsi character substitutions of
`_replace_arabic_characters`, in source order (old, new). -/
def ARABIC_SUBSTITUTIONS : List (Char × Char) :=
  [(Char.ofNat 1610, Char.ofNat 1740),
   (Char.ofNat 1574, Char.ofNat 1740),
   (Char.ofNat 1609, Char.ofNat 1740),
   (Char.ofNat 1571, Char.ofNat 1575),
   (Char.ofNat 1573, Char.ofNat 1575),
   (Char.ofNat 1572, Char.ofNat 1608),
   (Char.ofNat 1603, Char.ofNat 1705),
   (Char.ofNat 1728, Char.ofNat 1607),
   (Char.ofNat 1577, Char.ofNat 1607)]

/-- Code points matched by the regular-expression whitespace class on
Python strings (used by the run-collapsing step and by `str.strip`). -/
def PY_WHITESPACE_CODES : List Nat :=
  [9, 10, 11, 12, 13, 28, 29, 30, 31, 32, 133, 160, 5760,
   8192, 8193, 8194, 8195, 8196, 8197, 8198, 8199, 8200, 8201, 8202,
   8232, 8233, 8239, 8287, 12288]

/-- Whitespace test for the collapse and strip steps. -/
def pyWs (c : Char) : Bool := PY_WHITESPACE_CODES.contains c.toNat

/-- Source `Series.str.replace(old, new)` for one-character patterns: replace every
occurrence of `o` by `n`. -/
def replaceChar (o n : Char) (s : List Char) : List Char :=
  s.map (fun c => if c = o then n else c)

/-- Source `_replace_arabic_characters`: apply the nine substitutions in order. -/
def replaceArabicCharacters (s : List Char) : List Char :=
  ARABIC_SUBSTITUTIONS.foldl (fun acc p => replaceChar p.1 p.2 acc) s

/-- The character class removed by the `"[" ... "]"` regex in
`_clean_farsi_text`. -/
def removalChars : List Char := INVISIBLE_CHARS ++ UNWANTED_SYMBOLS

/-- Regex `\s+ -> " "`: every maximal run of whitespace becomes a single
plain space. -/
def collapseWs (s : List Char) : List Char :=
  s.foldr
    (fun c acc =>
      if pyWs c then
        if acc.head? = some (Char.ofNat 32) then acc else Char.ofNat 32 :: acc
      else c :: acc)
    []

/-- Regex `"\( " -> "("`: drop a single space directly after an opening
parenthesis (left-to-right, non-overlapping, as `re.sub`). -/
def removeSpaceAfterParen : List Char → List Char
  | c1 :: c2 :: rest =>
    if c1 = Char.ofNat 40 ∧ c2 = Char.ofNat 32 then
      c1 :: removeSpaceAfterParen rest
    else
      c1 :: removeSpaceAfterParen (c2 :: rest)
  | l => l

/-- Regex `" \)" -> ")"`: drop a single space directly before a closing
parenthesis. -/
def removeSpaceBeforeParen : List Char → List Char
  | c1 :: c2 :: rest =>
    if c1 = Char.ofNat 32 ∧ c2 = Char.ofNat 41 then
      c2 :: removeSpaceBeforeParen rest
    else
      c1 :: removeSpaceBeforeParen (c2 :: rest)
  | l => l

/-- Source `str.strip()`: drop leading and trailing whitespace. -/
def stripWs (s : List Char) : List Char :=
  ((s.dropWhile pyWs).reverse.dropWhile pyWs).reverse

/-- Source `_clean_farsi_text`, elementwise: Arabic substitutions; zero-width
non-joiner (8204) to space; removal of invisible and unwanted characters;
whitespace-run collapse; parenthesis-adjacent space trimming; strip. -/
def cleanFarsiText (s : List Char) : List Char :=
  stripWs
    (removeSpaceBeforeParen
      (removeSpaceAfterParen
        (collapseWs
          ((replaceChar (Char.ofNat 8204) (Char.ofNat 32)
              (replaceArabicCharacters s)).filter
            (fun c => !(removalChars.contains c))))))

/-- Source `normalize_text`, elementwise: `_clean_farsi_text`, then map 1570 to
1575 (alef madda to alef), then remove every plain space. -/
def normalizeText (s : List Char) : List Char :=
  (replaceChar (Char.ofNat 1570) (Char.ofNat 1575) (cleanFarsiText s)).filter
    (fun c => !(c = Char.ofNat 32 : Bool))

/-- Source `normalize_text` on a whole `String`. -/
def normalizeTextStr (s : String) : String :=
  String.mk (normalizeText s.data)

/-! ### Temporal index (`src/gdivir/utils/metadata_reader.py`)

`Dataset.get_nearest_year`: distances to every available year, the minimal
distance, the tied years, then max or min by `prefer_later`.  Python `min`
on an empty list raises, modelled by `none`. -/

/-- Source `Dataset.get_nearest_year(year, prefer_later)`. -/
def getNearestYear (years : List Int) (year : Int) (preferLater : Bool) :
    Option Int :=
  match (years.map (fun y => (y - year).natAbs)).min? with
  | none => none
  | some minDistance =>
    let nearYears := years.filter (fun y => decide ((y - year).natAbs = minDistance))
    if preferLater then nearYears.max? else nearYears.min?

/-! ### Population join (`src/gdivir/matchmaker/common.py`, `add_population`)

A census table is an association list from the stable key
(`Rural_District_or_City_ID` / `Village_ID`) to the nullable `Population`
value.  The `Household_Count` column goes through the identical
`_calculate_total_household_count` formula and is elided.  A join miss and
a matched record whose value is null both produce `NaN`, i.e. `none`. -/

/-- One row of the geographical snapshot as `add_population` sees it. -/
structure GeoRow where
  regionType : String
  unitKey : String
deriving DecidableEq

/-- Source `_filter_villages`: `Region_Type` in `{Regular_Village, Block_Village}`. -/
def isVillageType (t : String) : Bool :=
  decide (t = "Regular_Village") || decide (t = "Block_Village")

/-- Source `_filter_cities`: `Region_Type` equals `City`. -/
def isCityType (t : String) : Bool := decide (t = "City")

/-- Left join against a census table on the stable key (`validate="1:1"`,
so keys are unique and the first match is the match). -/
def censusLookup (census : List (String × Option Int)) (k : String) :
    Option Int :=
  (census.find? (fun p => decide (p.1 = k))).bind Prod.snd

/-- The `City_Population` column of a row: joined only for city rows. -/
def cityJoinValue (cityCensus : List (String × Option Int)) (row : GeoRow) :
    Option Int :=
  if isCityType row.regionType then censusLookup cityCensus row.unitKey
  else none

/-- The `Village_Population` column of a row: the village census is passed
through `.dropna()` (records with a null value are dropped) before the
join, and only village rows join. -/
def villageJoinValue (villageCensus : List (String × Option Int))
    (row : GeoRow) : Option Int :=
  if isVillageType row.regionType then
    censusLookup (villageCensus.filter (fun p => p.2.isSome)) row.unitKey
  else none

/-- Source `_calculate_total_population`: `fillna(0)`, sum the two parts, then
`replace(0, None)`. -/
def calculateTotalPopulation (cityPop villagePop : Option Int) : Option Int :=
  if cityPop.getD 0 + villagePop.getD 0 = 0 then none
  else some (cityPop.getD 0 + villagePop.getD 0)

/-- The combined `Population` field `add_population` assigns to one row. -/
def addPopulationRow (cityCensus villageCensus : List (String × Option Int))
    (row : GeoRow) : Option Int :=
  calculateTotalPopulation (cityJoinValue cityCensus row)
    (villageJoinValue villageCensus row)

/-! ### Transformation tables (`src/gdivir/matchmaker/common.py`)

A Village/City Unit table is a list of units: stable key `uid`
(`Village_ID` / `City_ID`), ancestor code `anc` for the requested region
type, and the nullable `Population` from `add_population`.  The two years'
tables are outer-merged on `uid` (`validate="1:1"`); `groupby` on the pair
of ancestor codes silently drops rows where either code is `NaN` (its
default `dropna=True`), i.e. exactly the rows of units present in only one
year.  `Shared_Household_Count` repeats the `Shared_Population` formula
and is elided. -/

/-- One Village/City Unit. -/
structure GUnit where
  uid : Nat
  anc : String
  pop : Option Nat
deriving DecidableEq

/-- The `(new ancestor, old ancestor)` group keys produced by the merge:
one per new-year unit whose key also appears in the old year. -/
def matchedPairs (old new : List GUnit) : List (String × String) :=
  new.filterMap (fun u =>
    (old.find? (fun o => o.uid == u.uid)).map (fun o => (u.anc, o.anc)))

/-- Source `Shared_Population` aggregated for the key `(a, b)`: sum of
`Population_New` (null summed as 0) over the matched units in the group. -/
def sharedPopulationFor (old new : List GUnit) (a b : String) : Nat :=
  (new.map (fun u =>
    match old.find? (fun o => o.uid == u.uid) with
    | some o => if u.anc = a ∧ o.anc = b then u.pop.getD 0 else 0
    | none => 0)).sum

/-- Source `Shared_Region_Count` for the key `(a, b)`: the `"ID_New": "count"`
aggregate, i.e. the number of matched units in the group. -/
def sharedCountFor (old new : List GUnit) (a b : String) : Nat :=
  (new.map (fun u =>
    match old.find? (fun o => o.uid == u.uid) with
    | some o => if u.anc = a ∧ o.anc = b then 1 else 0
    | none => 0)).sum

/-- One row of the population transformation table. -/
structure TRow where
  newID : String
  oldID : String
  sharedRegionCount : Nat
  sharedPopulation : Nat
deriving DecidableEq

/-- The group keys of the combined table: the outer merge of the city and
village transformation tables on the ancestor-code pair keeps the union of
both key sets. -/
def transformationKeys (oc nc ov nv : List GUnit) : List (String × String) :=
  ((matchedPairs oc nc).dedup ++ (matchedPairs ov nv).dedup).dedup

/-- Source `create_population_transformation_table`: one row per key, city and
village contributions `fillna(0)`-summed. -/
def transformationTable (oc nc ov nv : List GUnit) : List TRow :=
  (transformationKeys oc nc ov nv).map (fun k =>
    { newID := k.1, oldID := k.2,
      sharedRegionCount := sharedCountFor oc nc k.1 k.2 + sharedCountFor ov nv k.1 k.2,
      sharedPopulation := sharedPopulationFor oc nc k.1 k.2 + sharedPopulationFor ov nv k.1 k.2 })

/-- Population of the new-year units with ancestor `a` that are matched
(their stable key is present in the old year): the part of a region's
population the `groupby` aggregation actually keeps. -/
def matchedPopulation (old new : List GUnit) (a : String) : Nat :=
  (new.map (fun u =>
    match old.find? (fun o => o.uid == u.uid) with
    | some _ => if u.anc = a then u.pop.getD 0 else 0
    | none => 0)).sum

/-- Total population of region `a` as read from one unit table (nulls as
0): the reference value of the conservation claim. -/
def totalPopulation (units : List GUnit) (a : String) : Nat :=
  ((units.filter (fun u => decide (u.anc = a))).map (fun u => u.pop.getD 0)).sum

/-- Total `Shared_Population` of one `New_..._ID` group (the denominator
of the `transform(lambda s: s / s.sum() * 100)` share computation). -/
def groupTotal (rows : List TRow) (a : String) : Nat :=
  ((rows.filter (fun r => decide (r.newID = a))).map TRow.sharedPopulation).sum

/-- Source `Population_Share` of a row.  With a zero group total pandas computes
`0 / 0 = NaN` (every row of such a group has `Shared_Population = 0`), so
the share is `none`; otherwise it is the percentage as an exact rational. -/
def populationShare (rows : List TRow) (r : TRow) : Option ℚ :=
  if groupTotal rows r.newID = 0 then none
  else some ((r.sharedPopulation : ℚ) / (groupTotal rows r.newID : ℚ) * 100)

/-- Share with `NaN` read as 0, for order comparisons across one group. -/
def shareQ (rows : List TRow) (r : TRow) : ℚ :=
  (populationShare rows r).getD 0

/-- Code-point lexicographic strict order on character lists: the
comparison Python (and hence pandas `sort_values`) applies to `str`
values. -/
def charListLt : List Char → List Char → Bool
  | _, [] => false
  | [], _ :: _ => true
  | a :: t1, b :: t2 =>
    if a < b then true else if a = b then charListLt t1 t2 else false

/-- Python string `<` on whole strings. -/
def strLtB (s1 s2 : String) : Bool := charListLt s1.data s2.data

/-- The `sort_values([New_..._ID, Population_Share], ascending=[True,
False])` order: new code ascending, then population (hence share, the
group denominator being fixed) descending.  Equal-key row order is not
specified by the source's quicksort. -/
def rowLE (r1 r2 : TRow) : Prop :=
  strLtB r1.newID r2.newID = true ∨
    (r1.newID = r2.newID ∧ r2.sharedPopulation ≤ r1.sharedPopulation)

instance : DecidableRel rowLE := fun r1 r2 =>
  inferInstanceAs (Decidable (strLtB r1.newID r2.newID = true ∨
    (r1.newID = r2.newID ∧ r2.sharedPopulation ≤ r1.sharedPopulation)))

/-- The `Selected` flag of `create_many_to_one_mapping_documentation`:
`- duplicated(keep="first")` on the sorted table marks exactly the first
row of each `New_..._ID` group.  `seen` is the accumulator of codes
already encountered. -/
def keepFirstByNew (seen : List String) : List TRow → List TRow
  | [] => []
  | r :: rest =>
    if r.newID ∈ seen then keepFirstByNew seen rest
    else r :: keepFirstByNew (r.newID :: seen) rest

/-- The selected rows of the (sorted) documentation table. -/
def selectedRows (rows : List TRow) : List TRow :=
  keepFirstByNew [] (List.insertionSort rowLE rows)

/-- Source `create_many_to_one_mapping`: the dict from `New_..._ID` to
`Old_..._ID` of the selected rows.  Selected rows carry pairwise distinct
new codes, so the dict's last-key-wins order is immaterial and the first
match is the entry. -/
def createManyToOneMapping (rows : List TRow) (a : String) : Option String :=
  ((selectedRows rows).find? (fun r => decide (r.newID = a))).map TRow.oldID

/-! ### External-code reconciliation (`src/gdivir/matchmaker/county.py`,
`src/gdivir/matchmaker/province.py`)

`geodiv_counties` / `geodiv_provinces` are the deduplicated year rows of
the internal snapshots: a list of `(year, set of base codes)` candidates.
A raised Python exception (the `IndexError` of `.index[0]` on an empty
selection) is modelled by `none`. -/

/-- Source `_replace_values_in_set`: map every element through `dict.get(item,
item)`.  The mapping dictionaries carry unique keys, so the first match is
the entry. -/
def replaceValuesInSet (s : Finset String) (mapping : List (String × String)) :
    Finset String :=
  s.image (fun item =>
    ((mapping.find? (fun p => decide (p.1 = item))).map Prod.snd).getD item)

/-- Source `_count_differences`: for every candidate year at least 1363, the size
of the one-sided set difference between the EPT-remapped external set and
that year's internal county set. -/
def countDifferences (dsCounties : Finset String)
    (geodivCounties : List (Int × Finset String))
    (eptMappings : Int → List (String × String)) : List (Int × Nat) :=
  (geodivCounties.filter (fun p => decide (1363 ≤ p.1))).map (fun p =>
    (p.1, ((replaceValuesInSet dsCounties (eptMappings p.1)) \ p.2).card))

/-- The per-external-code selection step of the county
`find_geodiv_standard`: `s.loc[s.eq(0)].index[0]`, the first candidate
year with difference 0 (`none` models the `IndexError` when there is
none). -/
def findCountyStandardForCode (dsCounties : Finset String)
    (geodivCounties : List (Int × Finset String))
    (eptMappings : Int → List (String × String)) : Option Int :=
  (((countDifferences dsCounties geodivCounties eptMappings).filter
      (fun p => decide (p.2 = 0))).head?).map Prod.fst

/-- The per-external-code selection step of the province
`find_geodiv_standard`: `geodiv_provinces.eq(s).loc[lambda r: r].index[0]`,
the first candidate year whose set equals the external set. -/
def findProvinceStandardForCode (geodivProvinces : List (Int × Finset String))
    (dsProvinces : Finset String) : Option Int :=
  ((geodivProvinces.filter (fun p => decide (p.2 = dsProvinces))).head?).map
    Prod.fst

/-! ### Extra-provincial transformations (`src/gdivir/matchmaker/county.py`) -/

/-- Modelled from the spec: `create_one_to_one_mapping_documentation`,
called by `_get_extra_provincial_transformations`, is not part of the
sources under `src/`; per the spec (section 4.5) the one-to-one resolver
uses the same sort and first-row `Selected` marking as the many-to-one
resolver, so its selected rows are `selectedRows`. -/
def oneToOneSelectedRows (rows : List TRow) : List TRow :=
  selectedRows rows

/-- First two characters of a county code (`str[:2]`), its province part. -/
def provPart (s : String) : String := s.take 2

/-- The EPT entries of one standard year: selected one-to-one rows whose
province part changed, as `New_County_ID -> Old_County_ID` pairs. -/
def eptForYear (docRows : List TRow) : List (String × String) :=
  ((oneToOneSelectedRows docRows).filter
      (fun r => decide (provPart r.newID ≠ provPart r.oldID))).map
    (fun r => (r.newID, r.oldID))

/-- Source `_get_extra_provincial_transformations`: the dict starts as
`{1365: {}}` and gets one entry per distinct provincial standard year
other than 1365, built from that year's one-to-one documentation
(`tables` abstracts the per-year documentation table). -/
def getExtraProvincialTransformations (standards : List (String × Int))
    (tables : Int → List TRow) : List (Int × List (String × String)) :=
  (1365, []) ::
    (((standards.map Prod.snd).dedup).filter (fun y => decide (y ≠ 1365))).map
      (fun y => (y, eptForYear (tables y)))

/-- Dictionary access on the transformations list (keys are distinct: 1365
plus deduplicated other years). -/
def eptGet (l : List (Int × List (String × String))) (k : Int) :
    Option (List (String × String)) :=
  (l.find? (fun p => decide (p.1 = k))).map Prod.snd

/-! ### Version tracker (`src/src/gdivir/matchmaker/version_handler.py`)

`create_province_version_table` pivots years against region IDs; each
pivot row (one year's vector of names over all IDs) is treated as one
atomic value: `norm` is the normalized row used for deduplication, `raw`
the unnormalized row that is stored.  `drop_duplicates` is global (pandas
compares whole rows over the whole frame, not consecutive ones). -/

/-- One year row of the pivot. -/
structure YearRow where
  year : Int
  norm : String
  raw : String
deriving DecidableEq

/-- Source `drop_duplicates(keep="first")`: keep a row iff its normalized value
was not seen earlier; `seen` accumulates the values already kept. -/
def dropDupKeepFirst (seen : List String) : List YearRow → List YearRow
  | [] => []
  | e :: rest =>
    if e.norm ∈ seen then dropDupKeepFirst seen rest
    else e :: dropDupKeepFirst (e.norm :: seen) rest

/-- Source `drop_duplicates(keep="last")`: keep the last occurrence of every
distinct normalized value, in original order. -/
def dropDupKeepLast (l : List YearRow) : List YearRow :=
  (dropDupKeepFirst [] l.reverse).reverse

/-- The year labels the reduced table keeps
(`drop_duplicates(keep="first").index`). -/
def labelYears (l : List YearRow) : List Int :=
  (dropDupKeepFirst [] l).map YearRow.year

/-- The stored data rows (`reindex(drop_duplicates(keep="last").index)`). -/
def dataVals (l : List YearRow) : List String :=
  (dropDupKeepLast l).map YearRow.raw

/-- The reduced version table: keep-last data rows relabelled
(`set_axis`) with the keep-first years, positionally. -/
def versionTable (l : List YearRow) : List (Int × String) :=
  (labelYears l).zip (dataVals l)

/-! ### Reverse name lookup (`version_handler.py`, `search_*_version_year`
and `extract_*_codes`)

A stored version table is a list of era columns `(year label, column)`,
a column being `(ID, nullable name)` pairs.  `extract_province_codes` and
`extract_county_codes` differ only in which file the table comes from and
in the exception class raised, both modelled alike (`none` = raised).
Column labels of a stored table are pairwise distinct. -/

/-- Source `version_table.count()` for one column: its non-null name count. -/
def colCount (col : List (String × Option String)) : Nat :=
  (col.filter (fun p => p.2.isSome)).length

/-- Source `search_province_version_year` / `search_county_version_year`: the
columns whose count equals the number of supplied items; raises (`none`)
when there is none (`items_len in count.values` fails) or more than one
(`not len(versions) == 1`). -/
def searchVersionYear (table : List (String × List (String × Option String)))
    (n : Nat) : Option String :=
  let cands := table.filter (fun c => decide (colCount c.2 = n))
  if cands.isEmpty then none
  else if cands.length = 1 then cands.head?.map Prod.fst
  else none

/-- The era's name-to-ID dictionary: the column normalized and inverted
(`set_index(version_year)["ID"].to_dict()`); null names produce `NaN`
keys no string item can hit, so they are dropped; duplicate keys are
last-wins. -/
def buildCodeMapping (col : List (String × Option String)) :
    List (String × String) :=
  col.filterMap (fun p => p.2.map (fun name => (normalizeTextStr name, p.1)))

/-- Source `dict` lookup with last-occurrence-wins insertion order. -/
def dictLookup (l : List (String × String)) (k : String) : Option String :=
  (l.reverse.find? (fun p => decide (p.1 = k))).map Prod.snd

/-- Source `extract_province_codes` / `extract_county_codes`: find the unique
matching era, map every normalized item through the era's dictionary, and
return the codes only if every item resolved (`assert codes.isna().sum()
== 0`); any failure gives `none` (a raised exception, no partial
result). -/
def extractCodes (table : List (String × List (String × Option String)))
    (items : List String) : Option (List String) :=
  (searchVersionYear table items.length).bind fun y =>
    (table.find? (fun c => decide (c.1 = y))).bind fun c =>
      if (items.map (fun it =>
            dictLookup (buildCodeMapping c.2) (normalizeTextStr it))).all
          Option.isSome then
        some (items.map (fun it =>
          dictLookup (buildCodeMapping c.2) (normalizeTextStr it))).reduceOption
      else none

/-! ## Theorems -/

/-! ### Supporting lemmas -/

theorem antisymm_int : Std.Antisymm (fun (x1 x2 : Int) => x1 ≤ x2) :=
  ⟨@le_antisymm Int _⟩

theorem min?_int_spec {l : List Int} {a : Int} :
    l.min? = some a ↔ a ∈ l ∧ ∀ b ∈ l, a ≤ b := by
  have anti := antisymm_int
  exact List.min?_eq_some_iff (fun a => le_refl a) (fun a b => min_choice a b)
    (fun a b c => le_min_iff)

theorem max?_int_spec {l : List Int} {a : Int} :
    l.max? = some a ↔ a ∈ l ∧ ∀ b ∈ l, b ≤ a := by
  have anti := antisymm_int
  exact List.max?_eq_some_iff (fun a => le_refl a) (fun a b => max_choice a b)
    (fun a b c => max_le_iff)

theorem find?_map_key {α : Type} (f : Int → α) (ks : List Int) (y : Int)
    (hy : y ∈ ks) :
    (ks.map (fun k => (k, f k))).find? (fun p => decide (p.1 = y)) =
      some (y, f y) := by
  induction ks with
  | nil => cases hy
  | cons k rest ih =>
    rcases List.mem_cons.mp hy with h | h
    · subst h; simp [List.find?]
    · by_cases hk : k = y
      · subst hk; simp [List.find?]
      · simpa [List.find?, hk] using ih h

theorem filter_snd_eq_length_le (dsp : Finset String)
    (l : List (Int × Finset String)) (hnd : (l.map Prod.snd).Nodup) :
    (l.filter (fun p => decide (p.2 = dsp))).length ≤ 1 := by
  induction l with
  | nil => simp
  | cons p rest ih =>
    rw [List.map_cons, List.nodup_cons] at hnd
    by_cases hp : p.2 = dsp
    · have hrest : rest.filter (fun q => decide (q.2 = dsp)) = [] := by
        apply List.eq_nil_iff_forall_not_mem.mpr
        intro q hq
        have hq2 := List.of_mem_filter hq
        have hqmem := List.mem_of_mem_filter hq
        have hqd : q.2 = dsp := by simpa using hq2
        have hqp : q.2 = p.2 := hqd.trans hp.symm
        exact hnd.1 (by rw [← hqp]; exact List.mem_map_of_mem Prod.snd hqmem)
      simp [List.filter_cons, hp, hrest]
    · simpa [List.filter_cons, hp] using ih hnd.2

/-! ### Claim C1 -/

/-- Claim C1, counterexample: an external county code covered by two
candidate years both at difference zero (the external set `{01}` is a
subset of both internal county sets).  The ambiguous reconciliation does
not raise: it silently returns the first zero-difference year, 1363. -/
theorem county_reconciliation_ambiguous_cex :
    ((countDifferences {"01"}
        [(1363, {"01", "02"}), (1365, {"01", "02", "03"})]
        (fun _ => [])).filter (fun p => decide (p.2 = 0))).length = 2 ∧
    findCountyStandardForCode {"01"}
        [(1363, {"01", "02"}), (1365, {"01", "02", "03"})]
        (fun _ => []) = some 1363 := by
  decide

/-- Claim C1, amended: `find_geodiv_standard` raises (returns no result,
modelled `none`) exactly when NO candidate has difference zero (for
counties) or no candidate set equals the external set (for provinces);
with one OR MORE zero-difference candidates the county call silently
returns the first candidate year.  For provinces the deduplicated
candidate rows are pairwise distinct, so more than one exact-equality
match cannot occur. -/
theorem reconciliation_standard_selection (ds : Finset String)
    (g : List (Int × Finset String)) (ept : Int → List (String × String))
    (gp : List (Int × Finset String)) (dsp : Finset String) :
    (findCountyStandardForCode ds g ept = none ↔
      (countDifferences ds g ept).filter (fun p => decide (p.2 = 0)) = []) ∧
    (∀ y c,
      ((countDifferences ds g ept).filter
          (fun p => decide (p.2 = 0))).head? = some (y, c) →
      findCountyStandardForCode ds g ept = some y) ∧
    (findProvinceStandardForCode gp dsp = none ↔
      gp.filter (fun p => decide (p.2 = dsp)) = []) ∧
    ((gp.map Prod.snd).Nodup →
      (gp.filter (fun p => decide (p.2 = dsp))).length ≤ 1) := by
  refine ⟨?_, ?_, ?_, filter_snd_eq_length_le dsp gp⟩
  · unfold findCountyStandardForCode
    simp [List.head?_eq_none_iff]
  · intro y c h
    unfold findCountyStandardForCode
    rw [h]; rfl
  · unfold findProvinceStandardForCode
    simp [List.head?_eq_none_iff]

/-- Witness for C1's amended theorem at concrete inputs: a unique
zero-difference year is returned, and a distinct-row province candidate
list has at most one exact match. -/
theorem reconciliation_standard_selection_witness :
    findCountyStandardForCode {"01"} [((1363 : Int), ({"01"} : Finset String))]
        (fun _ => []) = some 1363 ∧
    ([((1363 : Int), ({"01"} : Finset String))].filter
        (fun p => decide (p.2 = ({"02"} : Finset String)))).length ≤ 1 := by
  have h := reconciliation_standard_selection {"01"} [(1363, {"01"})]
    (fun _ => []) [(1363, {"01"})] {"02"}
  exact ⟨h.2.1 1363 0 (by decide), h.2.2.2 (by decide)⟩

/-! ### Claim C5 -/

/-- Claim C5: the per-era EPT map of every provincial standard year other
than 1365 holds exactly the `New_County_ID -> Old_County_ID` pairs of the
selected one-to-one documentation rows whose two-character province part
changed, and the base year 1365 is mapped to the empty EPT map. -/
theorem ept_per_year_spec (standards : List (String × Int))
    (tables : Int → List TRow) :
    (eptGet (getExtraProvincialTransformations standards tables) 1365 =
      some []) ∧
    (∀ y, y ∈ standards.map Prod.snd → y ≠ 1365 →
      eptGet (getExtraProvincialTransformations standards tables) y =
        some (eptForYear (tables y))) ∧
    (∀ t n o, (n, o) ∈ eptForYear t ↔
      ∃ r ∈ oneToOneSelectedRows t,
        r.newID = n ∧ r.oldID = o ∧ provPart n ≠ provPart o) := by
  refine ⟨?_, ?_, ?_⟩
  · unfold eptGet getExtraProvincialTransformations
    simp [List.find?]
  · intro y hy hne
    unfold eptGet getExtraProvincialTransformations
    rw [List.find?_cons_of_neg _ (by simpa using fun h => hne h.symm)]
    rw [find?_map_key (fun k => eptForYear (tables k)) _ y
      (by simp [List.mem_filter, List.mem_dedup, hne, hy])]
    rfl
  · intro t n o
    constructor
    · intro h
      rcases List.mem_map.mp h with ⟨r, hr, heq⟩
      have hsel := List.mem_of_mem_filter hr
      have hpref : provPart r.newID ≠ provPart r.oldID := by
        simpa using List.of_mem_filter hr
      obtain ⟨h1, h2⟩ := Prod.mk.injEq .. ▸ heq
      exact ⟨r, hsel, h1, h2, by rw [← h1, ← h2]; exact hpref⟩
    · rintro ⟨r, hr, h1, h2, hpref⟩
      apply List.mem_map.mpr
      refine ⟨r, List.mem_filter.mpr ⟨hr, by simp [h1, h2, hpref]⟩, ?_⟩
      simp [h1, h2]

/-- Witness for C5 at concrete inputs: a one-entry standards dict with
year 1370 and a constant empty documentation table. -/
theorem ept_per_year_spec_witness :
    eptGet (getExtraProvincialTransformations [("x", 1370)] (fun _ => []))
        1370 = some (eptForYear []) ∧
    eptGet (getExtraProvincialTransformations [("x", 1370)] (fun _ => []))
        1365 = some [] := by
  have h := ept_per_year_spec [("x", 1370)] (fun _ => [])
  exact ⟨h.2.1 1370 (by decide) (by decide), h.1⟩

/-! ### Claim C8 -/

/-- Claim C8: on a non-empty year list, `get_nearest_year` returns a year
of the dataset minimizing the absolute distance to the query year,
breaking ties towards the maximal tied year when `prefer_later` and the
minimal tied year otherwise. -/
theorem get_nearest_year_spec (years : List Int) (year : Int) (pl : Bool)
    (h : years ≠ []) :
    ∃ y, getNearestYear years year pl = some y ∧ y ∈ years ∧
      (∀ z ∈ years, (y - year).natAbs ≤ (z - year).natAbs) ∧
      (∀ z ∈ years, (z - year).natAbs = (y - year).natAbs →
        (if pl then z ≤ y else y ≤ z)) := by
  obtain ⟨y0, hy0⟩ := List.exists_mem_of_ne_nil years h
  have hmapne : (years.map (fun y => (y - year).natAbs)) ≠ [] := by
    simpa using h
  obtain ⟨m, hm⟩ : ∃ m, (years.map (fun y => (y - year).natAbs)).min? = some m := by
    cases hmin : (years.map (fun y => (y - year).natAbs)).min? with
    | none => exact absurd (List.min?_eq_none_iff.mp hmin) hmapne
    | some m => exact ⟨m, rfl⟩
  obtain ⟨hmmem, hmle⟩ := List.min?_eq_some_iff'.mp hm
  obtain ⟨w, hwmem, hwdist⟩ := List.mem_map.mp hmmem
  have hwfilt : w ∈ years.filter (fun y => decide ((y - year).natAbs = m)) :=
    List.mem_filter.mpr ⟨hwmem, by simp [hwdist]⟩
  have hfiltne : years.filter (fun y => decide ((y - year).natAbs = m)) ≠ [] :=
    List.ne_nil_of_mem hwfilt
  cases pl with
  | true =>
    obtain ⟨y, hy⟩ : ∃ y,
        (years.filter (fun y => decide ((y - year).natAbs = m))).max? = some y := by
      cases hmax : (years.filter (fun y => decide ((y - year).natAbs = m))).max? with
      | none =>
        have : years.filter (fun y => decide ((y - year).natAbs = m)) = [] := by
          cases hl : years.filter (fun y => decide ((y - year).natAbs = m)) with
          | nil => rfl
          | cons a l => rw [hl] at hmax; simp [List.max?] at hmax
        exact absurd this hfiltne
      | some y => exact ⟨y, rfl⟩
    obtain ⟨hymem, hyub⟩ := max?_int_spec.mp hy
    have hyyears := List.mem_of_mem_filter hymem
    have hydist : (y - year).natAbs = m := by
      simpa using List.of_mem_filter hymem
    refine ⟨y, ?_, hyyears, ?_, ?_⟩
    · unfold getNearestYear
      rw [hm]; simpa using hy
    · intro z hz
      rw [hydist]
      exact hmle _ (List.mem_map.mpr ⟨z, hz, rfl⟩)
    · intro z hz hdist
      simp only [if_true]
      exact hyub z (List.mem_filter.mpr ⟨hz, by simp [hdist, hydist]⟩)
  | false =>
    obtain ⟨y, hy⟩ : ∃ y,
        (years.filter (fun y => decide ((y - year).natAbs = m))).min? = some y := by
      cases hminf : (years.filter (fun y => decide ((y - year).natAbs = m))).min? with
      | none => exact absurd (List.min?_eq_none_iff.mp hminf) hfiltne
      | some y => exact ⟨y, rfl⟩
    obtain ⟨hymem, hylb⟩ := min?_int_spec.mp hy
    have hyyears := List.mem_of_mem_filter hymem
    have hydist : (y - year).natAbs = m := by
      simpa using List.of_mem_filter hymem
    refine ⟨y, ?_, hyyears, ?_, ?_⟩
    · unfold getNearestYear
      rw [hm]; simpa using hy
    · intro z hz
      rw [hydist]
      exact hmle _ (List.mem_map.mpr ⟨z, hz, rfl⟩)
    · intro z hz hdist
      simp only [Bool.false_eq_true, if_false]
      exact hylb z (List.mem_filter.mpr ⟨hz, by simp [hdist, hydist]⟩)

/-- Witness for C8: `[1365, 1369]` queried at 1367 (a tie), preferring
later. -/
theorem get_nearest_year_spec_witness :
    ∃ y, getNearestYear [1365, 1369] 1367 true = some y ∧
      y ∈ [(1365 : Int), 1369] ∧
      (∀ z ∈ [(1365 : Int), 1369], (y - 1367).natAbs ≤ (z - 1367).natAbs) ∧
      (∀ z ∈ [(1365 : Int), 1369], (z - 1367).natAbs = (y - 1367).natAbs →
        (if true then z ≤ y else y ≤ z)) :=
  get_nearest_year_spec [1365, 1369] 1367 true (by decide)

/-! ### Claim C10 -/

/-- Claim C10: the combined `Population` of a row is null exactly when the
matched city and village census contributions (nulls read as 0) sum to 0;
consequently a city base unit matching no census record and one whose
recorded population is exactly 0 both produce a null `Population`,
indistinguishably. -/
theorem add_population_null_iff (cc vc : List (String × Option Int))
    (row : GeoRow) :
    (addPopulationRow cc vc row = none ↔
      (cityJoinValue cc row).getD 0 + (villageJoinValue vc row).getD 0 = 0) ∧
    (∀ (vc' : List (String × Option Int)) (k : String),
      addPopulationRow [] vc' ⟨"City", k⟩ = none ∧
      addPopulationRow [(k, some 0)] vc' ⟨"City", k⟩ = none) := by
  constructor
  · unfold addPopulationRow calculateTotalPopulation
    split <;> simp_all
  · intro vc' k
    refine ⟨?_, ?_⟩ <;>
      simp [addPopulationRow, calculateTotalPopulation, cityJoinValue,
        villageJoinValue, censusLookup, isCityType, isVillageType, List.find?]

/-! ### Claims C2 and C4: sums over the transformation table -/

theorem sum_map_add {α : Type} (l : List α) (f g : α → Nat) :
    (l.map (fun x => f x + g x)).sum = (l.map f).sum + (l.map g).sum := by
  induction l with
  | nil => simp
  | cons x xs ih => simp [ih]; omega

theorem sum_map_ite_eq {α : Type} [DecidableEq α] {l : List α}
    (hnd : l.Nodup) {k0 : α} (v : Nat) (hk : k0 ∈ l) :
    (l.map (fun k => if k = k0 then v else 0)).sum = v := by
  induction l with
  | nil => cases hk
  | cons x xs ih =>
    rw [List.nodup_cons] at hnd
    rcases List.mem_cons.mp hk with h | h
    · subst h
      have hzero : (xs.map (fun k => if k = k0 then v else 0)).sum = 0 := by
        apply List.sum_eq_zero
        intro n hn
        rcases List.mem_map.mp hn with ⟨k, hkxs, hkn⟩
        have : k ≠ k0 := fun he => hnd.1 (he ▸ hkxs)
        simpa [this] using hkn.symm
      simp [hzero]
    · have hxk : x ≠ k0 := fun he => hnd.1 (he ▸ h)
      simp [hxk, ih hnd.2 h]

theorem sum_map_ite_eq_zero {α : Type} [DecidableEq α] {l : List α}
    {k0 : α} (v : Nat) (hk : k0 ∉ l) :
    (l.map (fun k => if k = k0 then v else 0)).sum = 0 := by
  apply List.sum_eq_zero
  intro n hn
  rcases List.mem_map.mp hn with ⟨k, hkl, hkn⟩
  have : k ≠ k0 := fun he => hk (he ▸ hkl)
  simpa [this] using hkn.symm

theorem sharedPopulationFor_cons (old : List GUnit) (u : GUnit)
    (rest : List GUnit) (a b : String) :
    sharedPopulationFor old (u :: rest) a b =
      (match old.find? (fun o => o.uid == u.uid) with
        | some o => if u.anc = a ∧ o.anc = b then u.pop.getD 0 else 0
        | none => 0) + sharedPopulationFor old rest a b := by
  simp [sharedPopulationFor]

theorem matchedPopulation_cons (old : List GUnit) (u : GUnit)
    (rest : List GUnit) (a : String) :
    matchedPopulation old (u :: rest) a =
      (match old.find? (fun o => o.uid == u.uid) with
        | some _ => if u.anc = a then u.pop.getD 0 else 0
        | none => 0) + matchedPopulation old rest a := by
  simp [matchedPopulation]

theorem sum_sharedPopulationFor (old : List GUnit)
    (ks : List (String × String)) (hnd : ks.Nodup) (a : String) :
    ∀ (new : List GUnit),
    (∀ p ∈ matchedPairs old new, p ∈ ks) →
    ((ks.filter (fun k => decide (k.1 = a))).map
        (fun k => sharedPopulationFor old new k.1 k.2)).sum =
      matchedPopulation old new a := by
  intro new
  induction new with
  | nil =>
    intro _
    have : ∀ k ∈ ks.filter (fun k => decide (k.1 = a)),
        sharedPopulationFor old [] k.1 k.2 = 0 := by
      intro k _; simp [sharedPopulationFor]
    rw [List.map_congr_left this]
    simp [matchedPopulation]
  | cons u rest ih =>
    intro hcover
    have hcover_rest : ∀ p ∈ matchedPairs old rest, p ∈ ks := by
      intro p hp
      apply hcover
      unfold matchedPairs at hp ⊢
      rw [List.filterMap_cons]
      cases old.find? (fun o => o.uid == u.uid) <;> simp [hp]
    have hsplit :
        ((ks.filter (fun k => decide (k.1 = a))).map
            (fun k => sharedPopulationFor old (u :: rest) k.1 k.2)).sum =
          ((ks.filter (fun k => decide (k.1 = a))).map
              (fun k =>
                (match old.find? (fun o => o.uid == u.uid) with
                  | some o => if u.anc = k.1 ∧ o.anc = k.2 then u.pop.getD 0 else 0
                  | none => 0))).sum +
          ((ks.filter (fun k => decide (k.1 = a))).map
              (fun k => sharedPopulationFor old rest k.1 k.2)).sum := by
      rw [← sum_map_add]
      exact congrArg List.sum (List.map_congr_left
        (fun k _ => sharedPopulationFor_cons old u rest k.1 k.2))
    rw [hsplit, ih hcover_rest, matchedPopulation_cons]
    congr 1
    cases hfind : old.find? (fun o => o.uid == u.uid) with
    | none =>
      simp only [hfind]
      exact List.sum_eq_zero (by
        intro n hn
        obtain ⟨k, _, hkn⟩ := List.mem_map.mp hn
        simpa using hkn.symm)
    | some o =>
      simp only [hfind]
      have hcond : ∀ k ∈ ks.filter (fun k => decide (k.1 = a)),
          (if u.anc = k.1 ∧ o.anc = k.2 then u.pop.getD 0 else 0) =
            (if k = (u.anc, o.anc) then u.pop.getD 0 else 0) := by
        intro k _
        congr 1
        simp only [eq_iff_iff, Prod.ext_iff]
        constructor
        · rintro ⟨h1, h2⟩; exact ⟨h1.symm, h2.symm⟩
        · rintro ⟨h1, h2⟩; exact ⟨h1.symm, h2.symm⟩
      rw [List.map_congr_left hcond]
      have hkey : (u.anc, o.anc) ∈ matchedPairs old (u :: rest) := by
        unfold matchedPairs
        rw [List.filterMap_cons]
        simp [hfind]
      by_cases ha : u.anc = a
      · have hmem : (u.anc, o.anc) ∈ ks.filter (fun k => decide (k.1 = a)) :=
          List.mem_filter.mpr ⟨hcover _ hkey, by simp [ha]⟩
        rw [sum_map_ite_eq (hnd.filter _) (u.pop.getD 0) hmem]
        simp [ha]
      · have hnotmem : (u.anc, o.anc) ∉ ks.filter (fun k => decide (k.1 = a)) := by
          intro hmem
          exact ha (by simpa using (List.mem_filter.mp hmem).2)
        rw [sum_map_ite_eq_zero (u.pop.getD 0) hnotmem]
        simp [ha]

theorem transformationKeys_nodup (oc nc ov nv : List GUnit) :
    (transformationKeys oc nc ov nv).Nodup := by
  unfold transformationKeys
  exact List.nodup_dedup _

theorem matchedPairs_mem_keys_left (oc nc ov nv : List GUnit) :
    ∀ p ∈ matchedPairs oc nc, p ∈ transformationKeys oc nc ov nv := by
  intro p hp
  unfold transformationKeys
  exact List.mem_dedup.mpr (List.mem_append_left _ (List.mem_dedup.mpr hp))

theorem matchedPairs_mem_keys_right (oc nc ov nv : List GUnit) :
    ∀ p ∈ matchedPairs ov nv, p ∈ transformationKeys oc nc ov nv := by
  intro p hp
  unfold transformationKeys
  exact List.mem_dedup.mpr (List.mem_append_right _ (List.mem_dedup.mpr hp))

/-- Claim C2, amended: for a fixed new-ancestor code, the sum of
`Shared_Population` over its transformation-table rows equals the total
population of that region's MATCHED base units (city and village units
whose stable key occurs in both years).  Units present in only one year
are dropped by the `groupby` (its `NaN` keys), not zero-filled. -/
theorem transformation_population_conservation (oc nc ov nv : List GUnit)
    (a : String) :
    (((transformationTable oc nc ov nv).filter
        (fun r => decide (r.newID = a))).map TRow.sharedPopulation).sum =
      matchedPopulation oc nc a + matchedPopulation ov nv a := by
  unfold transformationTable
  rw [List.filter_map]
  rw [List.map_map]
  have hfilter :
      (transformationKeys oc nc ov nv).filter
          ((fun r => decide (r.newID = a)) ∘ fun k =>
            ({ newID := k.1, oldID := k.2,
               sharedRegionCount := sharedCountFor oc nc k.1 k.2 + sharedCountFor ov nv k.1 k.2,
               sharedPopulation := sharedPopulationFor oc nc k.1 k.2 + sharedPopulationFor ov nv k.1 k.2 } : TRow)) =
        (transformationKeys oc nc ov nv).filter (fun k => decide (k.1 = a)) := rfl
  rw [hfilter]
  have hbody :
      ((transformationKeys oc nc ov nv).filter (fun k => decide (k.1 = a))).map
          (TRow.sharedPopulation ∘ fun k =>
            ({ newID := k.1, oldID := k.2,
               sharedRegionCount := sharedCountFor oc nc k.1 k.2 + sharedCountFor ov nv k.1 k.2,
               sharedPopulation := sharedPopulationFor oc nc k.1 k.2 + sharedPopulationFor ov nv k.1 k.2 } : TRow)) =
        ((transformationKeys oc nc ov nv).filter (fun k => decide (k.1 = a))).map
          (fun k => sharedPopulationFor oc nc k.1 k.2 + sharedPopulationFor ov nv k.1 k.2) := rfl
  rw [hbody, sum_map_add]
  rw [sum_sharedPopulationFor oc (transformationKeys oc nc ov nv)
    (transformationKeys_nodup oc nc ov nv) a nc
    (matchedPairs_mem_keys_left oc nc ov nv)]
  rw [sum_sharedPopulationFor ov (transformationKeys oc nc ov nv)
    (transformationKeys_nodup oc nc ov nv) a nv
    (matchedPairs_mem_keys_right oc nc ov nv)]

/-- Claim C2, counterexample: a single new-year village with population 5
and no old-year match.  Its transformation table is empty, so the group
sum is 0 while the region's total population from the unit table is 5:
the unmatched unit is dropped, not zero-filled. -/
theorem transformation_population_conservation_cex :
    (((transformationTable [] [] [] [⟨1, "A", some 5⟩]).filter
        (fun r => decide (r.newID = "A"))).map TRow.sharedPopulation).sum = 0 ∧
    totalPopulation ([] : List GUnit) "A" +
      totalPopulation [⟨1, "A", some 5⟩] "A" = 5 ∧
    ¬((((transformationTable [] [] [] [⟨1, "A", some 5⟩]).filter
        (fun r => decide (r.newID = "A"))).map TRow.sharedPopulation).sum =
      totalPopulation ([] : List GUnit) "A" +
        totalPopulation [⟨1, "A", some 5⟩] "A") := by
  decide

/-- Claim C4, counterexample: a matched village whose new-year population
is null gives a group with zero total; its `Population_Share` is pandas
`0 / 0 = NaN` (modelled `none`), not a defined numeric default. -/
theorem population_share_undefined_cex :
    transformationTable [] [] [⟨1, "B", some 3⟩] [⟨1, "A", none⟩] =
      [⟨"A", "B", 1, 0⟩] ∧
    populationShare (transformationTable [] [] [⟨1, "B", some 3⟩]
        [⟨1, "A", none⟩]) ⟨"A", "B", 1, 0⟩ = none := by
  decide

/-- Claim C4, amended: the share computation is total — it never raises
on a zero denominator — but a group with zero total `Shared_Population`
gets `NaN` (`none`) shares rather than an explicit numeric default; in a
group with nonzero total the shares are defined and sum to 100. -/
theorem population_share_policy (rows : List TRow) (a : String) :
    (groupTotal rows a = 0 →
      ∀ r ∈ rows, r.newID = a → populationShare rows r = none) ∧
    (groupTotal rows a ≠ 0 →
      ((rows.filter (fun r => decide (r.newID = a))).map
          (fun r => shareQ rows r)).sum = 100) := by
  constructor
  · intro ht r _ hra
    unfold populationShare
    rw [hra]
    simp [ht]
  · intro ht
    have hcast : ((groupTotal rows a : ℚ)) ≠ 0 := Nat.cast_ne_zero.mpr ht
    have hstep : ∀ r ∈ rows.filter (fun r => decide (r.newID = a)),
        shareQ rows r = (r.sharedPopulation : ℚ) * (100 / (groupTotal rows a : ℚ)) := by
      intro r hr
      have hra : r.newID = a := by simpa using List.of_mem_filter hr
      unfold shareQ populationShare
      rw [hra]
      simp only [ht, if_false]
      rw [Option.getD_some, div_mul_eq_mul_div, mul_div_assoc]
    rw [List.map_congr_left hstep, List.sum_map_mul_right]
    have hsum : ((rows.filter (fun r => decide (r.newID = a))).map
        (fun r => ((r.sharedPopulation : ℚ)))).sum = ((groupTotal rows a : ℚ)) := by
      rw [groupTotal, Nat.cast_list_sum, List.map_map]
      rfl
    rw [hsum, mul_comm, div_mul_cancel₀ _ hcast]

/-- Witness for C4's amended theorem: a zero-total group gets `none`
shares; a 30/70 group's shares sum to 100. -/
theorem population_share_policy_witness :
    (∀ r ∈ ([⟨"B", "X", 1, 0⟩] : List TRow), r.newID = "B" →
      populationShare [⟨"B", "X", 1, 0⟩] r = none) ∧
    ((([⟨"A", "X", 1, 30⟩, ⟨"A", "Y", 1, 70⟩] : List TRow).filter
        (fun r => decide (r.newID = "A"))).map
        (fun r => shareQ [⟨"A", "X", 1, 30⟩, ⟨"A", "Y", 1, 70⟩] r)).sum = 100 :=
  ⟨(population_share_policy [⟨"B", "X", 1, 0⟩] "B").1 (by decide),
   (population_share_policy [⟨"A", "X", 1, 30⟩, ⟨"A", "Y", 1, 70⟩] "A").2
     (by decide)⟩

/-! ### Claim C3: many-to-one selection -/

theorem charListLt_irrefl : ∀ l : List Char, charListLt l l = false := by
  intro l
  induction l with
  | nil => rfl
  | cons a t ih => simp [charListLt, ih]

theorem charListLt_trichotomy :
    ∀ l1 l2 : List Char,
      charListLt l1 l2 = true ∨ l1 = l2 ∨ charListLt l2 l1 = true := by
  intro l1
  induction l1 with
  | nil =>
    intro l2
    cases l2 with
    | nil => exact Or.inr (Or.inl rfl)
    | cons b t2 => exact Or.inl rfl
  | cons a t1 ih =>
    intro l2
    cases l2 with
    | nil => exact Or.inr (Or.inr rfl)
    | cons b t2 =>
      rcases lt_trichotomy a b with h | h | h
      · exact Or.inl (by simp [charListLt, h])
      · subst h
        rcases ih t2 with h2 | h2 | h2
        · exact Or.inl (by simp [charListLt, h2])
        · exact Or.inr (Or.inl (by rw [h2]))
        · exact Or.inr (Or.inr (by simp [charListLt, h2]))
      · refine Or.inr (Or.inr ?_)
        simp [charListLt, h]

theorem charListLt_trans :
    ∀ l1 l2 l3 : List Char,
      charListLt l1 l2 = true → charListLt l2 l3 = true →
        charListLt l1 l3 = true := by
  intro l1
  induction l1 with
  | nil =>
    intro l2 l3 _ h23
    cases l3 with
    | nil =>
      cases l2 with
      | nil => simp [charListLt] at h23
      | cons b t2 => simp [charListLt] at h23
    | cons c t3 => rfl
  | cons a t1 ih =>
    intro l2 l3 h12 h23
    cases l2 with
    | nil => simp [charListLt] at h12
    | cons b t2 =>
      cases l3 with
      | nil => simp [charListLt] at h23
      | cons c t3 =>
        simp only [charListLt] at h12 h23 ⊢
        by_cases hab : a < b
        · by_cases hbc : b < c
          · simp [hab.trans hbc]
          · by_cases hbc2 : b = c
            · subst hbc2; simp [hab]
            · simp [hbc, hbc2] at h23
        · by_cases hab2 : a = b
          · subst hab2
            by_cases hbc : a < c
            · simp [hbc]
            · by_cases hbc2 : a = c
              · subst hbc2
                simp [hab] at h12 ⊢
                simp [hab] at h23
                exact ih t2 t3 h12 h23
              · simp [hbc, hbc2] at h23
          · simp [hab, hab2] at h12

theorem strLtB_irrefl (s : String) : strLtB s s = false := by
  unfold strLtB; exact charListLt_irrefl _

theorem strLtB_trans {s1 s2 s3 : String} (h1 : strLtB s1 s2 = true)
    (h2 : strLtB s2 s3 = true) : strLtB s1 s3 = true := by
  unfold strLtB at h1 h2 ⊢
  exact charListLt_trans _ _ _ h1 h2

theorem strLtB_trichotomy (s1 s2 : String) :
    strLtB s1 s2 = true ∨ s1 = s2 ∨ strLtB s2 s1 = true := by
  unfold strLtB
  rcases charListLt_trichotomy s1.data s2.data with h | h | h
  · exact Or.inl h
  · refine Or.inr (Or.inl ?_)
    cases s1; cases s2
    exact congrArg String.mk h
  · exact Or.inr (Or.inr h)

theorem rowLE_total : IsTotal TRow rowLE := by
  constructor
  intro a b
  rcases strLtB_trichotomy a.newID b.newID with h | h | h
  · exact Or.inl (Or.inl h)
  · rcases le_total b.sharedPopulation a.sharedPopulation with h2 | h2
    · exact Or.inl (Or.inr ⟨h, h2⟩)
    · exact Or.inr (Or.inr ⟨h.symm, h2⟩)
  · exact Or.inr (Or.inl h)

theorem rowLE_trans : IsTrans TRow rowLE := by
  constructor
  intro a b c hab hbc
  rcases hab with h1 | ⟨e1, p1⟩
  · rcases hbc with h2 | ⟨e2, _⟩
    · exact Or.inl (strLtB_trans h1 h2)
    · exact Or.inl (e2 ▸ h1)
  · rcases hbc with h2 | ⟨e2, p2⟩
    · exact Or.inl (by rw [e1]; exact h2)
    · exact Or.inr ⟨e1.trans e2, p2.trans p1⟩

theorem find?_keepFirstByNew (a : String) (l : List TRow) :
    ∀ seen : List String,
    (keepFirstByNew seen l).find? (fun r => decide (r.newID = a)) =
      if a ∈ seen then none else l.find? (fun r => decide (r.newID = a)) := by
  induction l with
  | nil => intro seen; cases Decidable.em (a ∈ seen) <;> simp_all [keepFirstByNew]
  | cons r rest ih =>
    intro seen
    by_cases hseen : r.newID ∈ seen
    · rw [keepFirstByNew, if_pos hseen, ih seen]
      by_cases hmem : a ∈ seen
      · simp [hmem]
      · have hra : ¬(r.newID = a) := fun he => hmem (he ▸ hseen)
        simp [hmem, List.find?_cons_of_neg, hra]
    · rw [keepFirstByNew, if_neg hseen]
      by_cases hra : r.newID = a
      · have hmem : a ∉ seen := fun hm => hseen (hra ▸ hm)
        rw [List.find?_cons_of_pos _ (by simp [hra]),
          List.find?_cons_of_pos _ (by simp [hra]), if_neg hmem]
      · rw [List.find?_cons_of_neg _ (by simp [hra]), ih (r.newID :: seen)]
        by_cases hmem : a ∈ seen
        · simp [hmem, List.mem_cons]
        · have : a ∉ r.newID :: seen := by
            intro hm
            rcases List.mem_cons.mp hm with he | hm2
            · exact hra he.symm
            · exact hmem hm2
          rw [if_neg this, if_neg hmem, List.find?_cons_of_neg _ (by simp [hra])]

theorem find?_sorted_max (l : List TRow) (hs : List.Sorted rowLE l)
    (a : String) (sel : TRow)
    (hfind : l.find? (fun r => decide (r.newID = a)) = some sel) :
    ∀ r ∈ l, r.newID = a → r.sharedPopulation ≤ sel.sharedPopulation := by
  induction l with
  | nil => cases hfind
  | cons h t ih =>
    rw [List.sorted_cons] at hs
    by_cases hha : h.newID = a
    · rw [List.find?_cons_of_pos _ (by simp [hha])] at hfind
      injection hfind with hsel
      subst hsel
      intro r hr hra
      rcases List.mem_cons.mp hr with he | hrt
      · exact he ▸ le_refl _
      · rcases hs.1 r hrt with hlt | ⟨_, hle⟩
        · rw [hha, hra] at hlt
          simp [strLtB_irrefl] at hlt
        · exact hle
    · rw [List.find?_cons_of_neg _ (by simp [hha])] at hfind
      intro r hr hra
      rcases List.mem_cons.mp hr with he | hrt
      · exact absurd (he ▸ hra) hha
      · exact ih hs.2 hfind r hrt hra

/-- Claim C3, amended: `create_many_to_one_mapping` maps every new code
present in the table to the old code of the first row of its group after
the (new code ascending, share descending) sort — an old code of maximal
`Shared_Population`, hence maximal `Population_Share`, within the group.
In the 0312-split scenario the claimed shares are 100.0, not 50.0 (see
the counterexample). -/
theorem many_to_one_selects_max_share (rows : List TRow) (a : String)
    (h : a ∈ rows.map TRow.newID) :
    ∃ sel ∈ rows, sel.newID = a ∧
      createManyToOneMapping rows a = some sel.oldID ∧
      ∀ r ∈ rows, r.newID = a →
        r.sharedPopulation ≤ sel.sharedPopulation ∧
          shareQ rows r ≤ shareQ rows sel := by
  have hperm : (List.insertionSort rowLE rows).Perm rows :=
    List.perm_insertionSort rowLE rows
  obtain ⟨r0, hr0, hr0a⟩ := List.mem_map.mp h
  have hr0s : r0 ∈ List.insertionSort rowLE rows := hperm.mem_iff.mpr hr0
  have hfindsome :
      ((List.insertionSort rowLE rows).find?
        (fun r => decide (r.newID = a))).isSome :=
    List.find?_isSome.mpr ⟨r0, hr0s, by simp [hr0a]⟩
  obtain ⟨sel, hsel⟩ := Option.isSome_iff_exists.mp hfindsome
  have hselmap : createManyToOneMapping rows a = some sel.oldID := by
    unfold createManyToOneMapping selectedRows
    rw [find?_keepFirstByNew a _ []]
    simp [hsel]
  have hselmem : sel ∈ rows := hperm.mem_iff.mp (List.mem_of_find?_eq_some hsel)
  have hsela : sel.newID = a := by simpa using List.find?_some hsel
  refine ⟨sel, hselmem, hsela, hselmap, ?_⟩
  intro r hr hra
  have hmax := find?_sorted_max (List.insertionSort rowLE rows)
    (@List.sorted_insertionSort TRow rowLE _ rowLE_total rowLE_trans rows)
    a sel hsel r (hperm.mem_iff.mpr hr) hra
  refine ⟨hmax, ?_⟩
  unfold shareQ populationShare
  rw [hra, hsela]
  by_cases ht : groupTotal rows a = 0
  · simp [ht]
  · have ht0 : (0 : ℚ) < (groupTotal rows a : ℚ) := by
      exact_mod_cast Nat.pos_of_ne_zero ht
    simp only [ht, if_false, Option.getD_some]
    exact mul_le_mul_of_nonneg_right
      ((div_le_div_iff_of_pos_right ht0).mpr (Nat.cast_le.mpr hmax)) (by norm_num)

/-- Witness for C3's amended theorem: a two-row group where the maximal
share row (old code `Y`, population 7) is selected. -/
theorem many_to_one_selects_max_share_witness :
    ∃ sel ∈ ([⟨"A", "X", 1, 3⟩, ⟨"A", "Y", 1, 7⟩] : List TRow),
      sel.newID = "A" ∧
      createManyToOneMapping [⟨"A", "X", 1, 3⟩, ⟨"A", "Y", 1, 7⟩] "A" =
        some sel.oldID ∧
      ∀ r ∈ ([⟨"A", "X", 1, 3⟩, ⟨"A", "Y", 1, 7⟩] : List TRow), r.newID = "A" →
        r.sharedPopulation ≤ sel.sharedPopulation ∧
          shareQ [⟨"A", "X", 1, 3⟩, ⟨"A", "Y", 1, 7⟩] r ≤
            shareQ [⟨"A", "X", 1, 3⟩, ⟨"A", "Y", 1, 7⟩] sel :=
  many_to_one_selects_max_share [⟨"A", "X", 1, 3⟩, ⟨"A", "Y", 1, 7⟩] "A"
    (by decide)

/-- Claim C3, counterexample: the synthetic split of county 0312 into
0312 and 0313, each new county keeping one village of population 50.  The
mapping does send both new codes to old 0312, but each group consists of
one row holding its region's whole matched population, so each
`Population_Share` is 100.0, not approximately 50.0. -/
theorem many_to_one_split_scenario_cex :
    transformationTable [] []
        [⟨1, "0312", some 50⟩, ⟨2, "0312", some 50⟩]
        [⟨1, "0312", some 50⟩, ⟨2, "0313", some 50⟩] =
      [⟨"0312", "0312", 1, 50⟩, ⟨"0313", "0312", 1, 50⟩] ∧
    createManyToOneMapping (transformationTable [] []
        [⟨1, "0312", some 50⟩, ⟨2, "0312", some 50⟩]
        [⟨1, "0312", some 50⟩, ⟨2, "0313", some 50⟩]) "0312" = some "0312" ∧
    createManyToOneMapping (transformationTable [] []
        [⟨1, "0312", some 50⟩, ⟨2, "0312", some 50⟩]
        [⟨1, "0312", some 50⟩, ⟨2, "0313", some 50⟩]) "0313" = some "0312" ∧
    populationShare (transformationTable [] []
        [⟨1, "0312", some 50⟩, ⟨2, "0312", some 50⟩]
        [⟨1, "0312", some 50⟩, ⟨2, "0313", some 50⟩])
        ⟨"0313", "0312", 1, 50⟩ = some 100 ∧
    ¬(populationShare (transformationTable [] []
        [⟨1, "0312", some 50⟩, ⟨2, "0312", some 50⟩]
        [⟨1, "0312", some 50⟩, ⟨2, "0313", some 50⟩])
        ⟨"0313", "0312", 1, 50⟩ = some 50) := by
  have ht : groupTotal (transformationTable [] []
      [⟨1, "0312", some 50⟩, ⟨2, "0312", some 50⟩]
      [⟨1, "0312", some 50⟩, ⟨2, "0313", some 50⟩]) "0313" = 50 := by decide
  have hshare : populationShare (transformationTable [] []
      [⟨1, "0312", some 50⟩, ⟨2, "0312", some 50⟩]
      [⟨1, "0312", some 50⟩, ⟨2, "0313", some 50⟩])
      ⟨"0313", "0312", 1, 50⟩ = some 100 := by
    unfold populationShare
    norm_num [ht]
  refine ⟨by decide, by decide, by decide, hshare, ?_⟩
  rw [hshare]
  norm_num

/-! ### Claim C6: version tracker -/

theorem mem_dropDupKeepFirst (x : YearRow) :
    ∀ (l : List YearRow) (seen : List String),
      x ∈ dropDupKeepFirst seen l ↔
        ∃ l1 l2, l = l1 ++ x :: l2 ∧ x.norm ∉ seen ∧
          x.norm ∉ l1.map YearRow.norm := by
  intro l
  induction l with
  | nil =>
    intro seen
    simp only [dropDupKeepFirst, List.not_mem_nil, false_iff]
    rintro ⟨l1, l2, heq, -, -⟩
    exact (List.cons_ne_nil x l2) (List.append_eq_nil.mp heq.symm).2
  | cons e rest ih =>
    intro seen
    by_cases hs : e.norm ∈ seen
    · rw [dropDupKeepFirst, if_pos hs, ih seen]
      constructor
      · rintro ⟨l1, l2, heq, hns, hnl1⟩
        refine ⟨e :: l1, l2, by rw [heq]; rfl, hns, ?_⟩
        rw [List.map_cons]
        intro hm
        rcases List.mem_cons.mp hm with h1 | h2
        · exact hns (h1 ▸ hs)
        · exact hnl1 h2
      · rintro ⟨l1, l2, heq, hns, hnl1⟩
        cases l1 with
        | nil =>
          simp only [List.nil_append, List.cons.injEq] at heq
          exact absurd (heq.1 ▸ hs) hns
        | cons f l1' =>
          simp only [List.cons_append, List.cons.injEq] at heq
          exact ⟨l1', l2, heq.2, hns,
            fun hm => hnl1 (by rw [List.map_cons]; exact List.mem_cons_of_mem _ hm)⟩
    · rw [dropDupKeepFirst, if_neg hs]
      constructor
      · intro hx
        rcases List.mem_cons.mp hx with hxe | hxr
        · exact ⟨[], rest, by rw [hxe]; rfl, hxe ▸ hs, by simp⟩
        · obtain ⟨l1, l2, heq, hns, hnl1⟩ := (ih (e.norm :: seen)).mp hxr
          have hxne : x.norm ≠ e.norm := fun hh => hns (hh ▸ List.mem_cons_self _ _)
          have hxs : x.norm ∉ seen := fun hh => hns (List.mem_cons_of_mem _ hh)
          refine ⟨e :: l1, l2, by rw [heq]; rfl, hxs, ?_⟩
          rw [List.map_cons]
          intro hm
          rcases List.mem_cons.mp hm with h1 | h2
          · exact hxne h1
          · exact hnl1 h2
      · rintro ⟨l1, l2, heq, hns, hnl1⟩
        cases l1 with
        | nil =>
          simp only [List.nil_append, List.cons.injEq] at heq
          exact List.mem_cons.mpr (Or.inl heq.1.symm)
        | cons f l1' =>
          simp only [List.cons_append, List.cons.injEq] at heq
          obtain ⟨hef, hrest⟩ := heq
          apply List.mem_cons.mpr
          right
          apply (ih (e.norm :: seen)).mpr
          refine ⟨l1', l2, hrest, ?_,
            fun hm => hnl1 (by rw [List.map_cons]; exact List.mem_cons_of_mem _ hm)⟩
          intro hm
          rcases List.mem_cons.mp hm with h1 | h2
          · exact hnl1 (by
              rw [List.map_cons]
              exact List.mem_cons.mpr (Or.inl (h1.trans (congrArg YearRow.norm hef))))
          · exact hns h2

theorem mem_dropDupKeepLast (x : YearRow) (l : List YearRow) :
    x ∈ dropDupKeepLast l ↔
      ∃ l1 l2, l = l1 ++ x :: l2 ∧ x.norm ∉ l2.map YearRow.norm := by
  unfold dropDupKeepLast
  rw [List.mem_reverse, mem_dropDupKeepFirst x l.reverse []]
  constructor
  · rintro ⟨r1, r2, heq, -, hn⟩
    refine ⟨r2.reverse, r1.reverse, ?_, ?_⟩
    · have hrev := congrArg List.reverse heq
      rw [List.reverse_reverse] at hrev
      rw [hrev]
      simp [List.reverse_append, List.append_assoc]
    · rw [List.map_reverse, List.mem_reverse]
      exact hn
  · rintro ⟨l1, l2, heq, hn⟩
    refine ⟨l2.reverse, l1.reverse, ?_, by simp, ?_⟩
    · rw [heq]
      simp [List.reverse_append, List.append_assoc]
    · rw [List.map_reverse, List.mem_reverse]
      exact hn

theorem mem_labelYears (y : Int) (l : List YearRow) :
    y ∈ labelYears l ↔
      ∃ l1 x l2, l = l1 ++ x :: l2 ∧ YearRow.year x = y ∧
        YearRow.norm x ∉ l1.map YearRow.norm := by
  unfold labelYears
  rw [List.mem_map]
  constructor
  · rintro ⟨x, hx, hxy⟩
    obtain ⟨l1, l2, heq, -, hn⟩ := (mem_dropDupKeepFirst x l []).mp hx
    exact ⟨l1, x, l2, heq, hxy, hn⟩
  · rintro ⟨l1, x, l2, heq, hxy, hn⟩
    exact ⟨x, (mem_dropDupKeepFirst x l []).mpr ⟨l1, l2, heq, by simp, hn⟩, hxy⟩

theorem mem_dataVals (d : String) (l : List YearRow) :
    d ∈ dataVals l ↔
      ∃ l1 x l2, l = l1 ++ x :: l2 ∧ YearRow.raw x = d ∧
        YearRow.norm x ∉ l2.map YearRow.norm := by
  unfold dataVals
  rw [List.mem_map]
  constructor
  · rintro ⟨x, hx, hxd⟩
    obtain ⟨l1, l2, heq, hn⟩ := (mem_dropDupKeepLast x l).mp hx
    exact ⟨l1, x, l2, heq, hxd, hn⟩
  · rintro ⟨l1, x, l2, heq, hxd, hn⟩
    exact ⟨x, (mem_dropDupKeepLast x l).mpr ⟨l1, l2, heq, hn⟩, hxd⟩

theorem length_dropDupKeepFirst :
    ∀ (l : List YearRow) (seen : List String),
      (dropDupKeepFirst seen l).length =
        ((l.map YearRow.norm).toFinset \ seen.toFinset).card := by
  intro l
  induction l with
  | nil => intro seen; simp [dropDupKeepFirst]
  | cons e rest ih =>
    intro seen
    by_cases hs : e.norm ∈ seen
    · rw [dropDupKeepFirst, if_pos hs, ih seen, List.map_cons, List.toFinset_cons,
        Finset.insert_sdiff_of_mem _ (List.mem_toFinset.mpr hs)]
    · rw [dropDupKeepFirst, if_neg hs, List.length_cons, ih (e.norm :: seen),
        List.map_cons, List.toFinset_cons, List.toFinset_cons]
      rw [Finset.sdiff_insert]
      have hsplit :
          insert e.norm ((rest.map YearRow.norm).toFinset) \ seen.toFinset =
            insert e.norm ((rest.map YearRow.norm).toFinset \ seen.toFinset) := by
        ext a
        simp only [Finset.mem_sdiff, Finset.mem_insert]
        constructor
        · rintro ⟨h1 | h1, h2⟩
          · exact Or.inl h1
          · exact Or.inr ⟨h1, h2⟩
        · rintro (h1 | ⟨h1, h2⟩)
          · exact ⟨Or.inl h1, h1 ▸ fun hc => hs (List.mem_toFinset.mp hc)⟩
          · exact ⟨Or.inr h1, h2⟩
      rw [hsplit]
      by_cases he : e.norm ∈ (rest.map YearRow.norm).toFinset \ seen.toFinset
      · rw [Finset.insert_eq_self.mpr he, Finset.card_erase_of_mem he]
        have : 0 < ((rest.map YearRow.norm).toFinset \ seen.toFinset).card :=
          Finset.card_pos.mpr ⟨e.norm, he⟩
        omega
      · rw [Finset.card_insert_of_not_mem he, Finset.erase_eq_of_not_mem he]

theorem length_labelYears_eq_dataVals (l : List YearRow) :
    (labelYears l).length = (dataVals l).length := by
  unfold labelYears dataVals dropDupKeepLast
  rw [List.length_map, List.length_map, List.length_reverse,
    length_dropDupKeepFirst l [], length_dropDupKeepFirst l.reverse []]
  rw [List.map_reverse, List.toFinset_reverse]

/-- Claim C6, amended: in the reduced version table, (a) a year whose
normalized row equals the immediately preceding year's row is never
retained; (b) the retained year labels are exactly the years of the FIRST
occurrence of each distinct normalized row; (c) the stored data rows are
exactly the raw rows of the LAST occurrences of the distinct normalized
rows; (d) both lists have the same length (one entry per distinct row)
and the table pairs them positionally.  The converse of (a) — every
consecutive-year change produces a retained boundary — FAILS when a row
changes back to a previously seen value (see the counterexample), and the
positional pairing of (d) matches label to the SAME row's last occurrence
only in that no-revisit situation. -/
theorem version_table_era_characterization (l : List YearRow)
    (hnd : (l.map YearRow.year).Nodup) :
    (∀ i : Nat, (h1 : i + 1 < l.length) →
      (l.get ⟨i + 1, h1⟩).norm = (l.get ⟨i, Nat.lt_of_succ_lt h1⟩).norm →
      (l.get ⟨i + 1, h1⟩).year ∉ labelYears l) ∧
    (∀ y, y ∈ labelYears l ↔
      ∃ l1 x l2, l = l1 ++ x :: l2 ∧ YearRow.year x = y ∧
        YearRow.norm x ∉ l1.map YearRow.norm) ∧
    (∀ d, d ∈ dataVals l ↔
      ∃ l1 x l2, l = l1 ++ x :: l2 ∧ YearRow.raw x = d ∧
        YearRow.norm x ∉ l2.map YearRow.norm) ∧
    (labelYears l).length = (dataVals l).length ∧
    versionTable l = (labelYears l).zip (dataVals l) := by
  refine ⟨?_, fun y => mem_labelYears y l, fun d => mem_dataVals d l,
    length_labelYears_eq_dataVals l, rfl⟩
  intro i h1 heq hy
  obtain ⟨l1, x, l2, hsplit, hyear, hnorm⟩ := (mem_labelYears _ l).mp hy
  have hlen : l1.length < l.length := by
    rw [hsplit, List.length_append, List.length_cons]
    omega
  have hx0 : (l1 ++ x :: l2).get ⟨l1.length, by simp⟩ = x := by
    simp only [List.get_eq_getElem]
    rw [List.getElem_append_right (Nat.le_refl _)]
    simp
  have hxpos : l.get ⟨l1.length, hlen⟩ = x := by
    simp only [List.get_eq_getElem]
    rw [List.getElem_of_eq hsplit]
    simpa using hx0
  have hyeq : (l.map YearRow.year).get
        ⟨l1.length, by rw [List.length_map]; exact hlen⟩ =
      (l.map YearRow.year).get
        ⟨i + 1, by rw [List.length_map]; exact h1⟩ := by
    simp only [List.get_eq_getElem, List.getElem_map]
    have h2 := hxpos
    simp only [List.get_eq_getElem] at h2
    rw [h2]
    exact hyear
  have hidx : l1.length = i + 1 := by
    have hfin := hnd.get_inj_iff.mp hyeq
    exact congrArg Fin.val hfin
  have hl1 : l1 = l.take (i + 1) := by
    rw [← hidx, hsplit, List.take_left]
  have hprev : (l.get ⟨i, Nat.lt_of_succ_lt h1⟩) ∈ l1 := by
    rw [hl1]
    have hti : i < (l.take (i + 1)).length := by
      rw [List.length_take]
      omega
    have : (l.take (i + 1)).get ⟨i, hti⟩ = l.get ⟨i, Nat.lt_of_succ_lt h1⟩ := by
      simp [List.getElem_take]
    rw [← this]
    exact List.get_mem _ _ _
  apply hnorm
  have hxi : x = l.get ⟨i + 1, h1⟩ := by
    rw [← hxpos]
    congr 1
    exact Fin.ext hidx
  rw [hxi, heq]
  exact List.mem_map_of_mem YearRow.norm hprev

/-- Witness for C6's amended theorem: two years with the same normalized
row; the second year is not retained. -/
theorem version_table_era_characterization_witness :
    (([⟨1, "A", "A1"⟩, ⟨2, "A", "A2"⟩] : List YearRow).get
        ⟨1, by decide⟩).year ∉
      labelYears [⟨1, "A", "A1"⟩, ⟨2, "A", "A2"⟩] :=
  (version_table_era_characterization [⟨1, "A", "A1"⟩, ⟨2, "A", "A2"⟩]
    (by decide)).1 0 (by decide) (by decide)

/-- Claim C6, counterexample: rows A, B, A over years 1, 2, 3.  Year 3's
normalized row changes relative to year 2, yet year 3 is not retained
(global `drop_duplicates` sees it as a duplicate of year 1); moreover the
table pairs label year 1 (first occurrence of row A) with the stored data
of row B, not with row A's last occurrence. -/
theorem version_table_revisit_cex :
    labelYears [⟨1, "A", "A1"⟩, ⟨2, "B", "B2"⟩, ⟨3, "A", "A3"⟩] = [1, 2] ∧
    (([⟨1, "A", "A1"⟩, ⟨2, "B", "B2"⟩, ⟨3, "A", "A3"⟩] : List YearRow).get
        ⟨2, by decide⟩).norm ≠
      (([⟨1, "A", "A1"⟩, ⟨2, "B", "B2"⟩, ⟨3, "A", "A3"⟩] : List YearRow).get
        ⟨1, by decide⟩).norm ∧
    (3 : Int) ∉ labelYears [⟨1, "A", "A1"⟩, ⟨2, "B", "B2"⟩, ⟨3, "A", "A3"⟩] ∧
    versionTable [⟨1, "A", "A1"⟩, ⟨2, "B", "B2"⟩, ⟨3, "A", "A3"⟩] =
      [(1, "B2"), (2, "A3")] := by
  decide

/-! ### Claim C7: reverse name lookup -/

theorem reduceOption_length_of_all_isSome {α : Type} :
    ∀ (l : List (Option α)), l.all Option.isSome = true →
      l.reduceOption.length = l.length := by
  intro l
  induction l with
  | nil => intro _; rfl
  | cons x xs ih =>
    intro h
    rw [List.all_cons, Bool.and_eq_true] at h
    cases x with
    | none => simp at h
    | some a =>
      rw [List.reduceOption_cons_of_some]
      simp [ih h.2]

theorem searchVersionYear_eq_some (table : List (String × List (String × Option String)))
    (n : Nat) (y : String) :
    searchVersionYear table n = some y →
      (table.filter (fun c => decide (colCount c.2 = n))).length = 1 ∧
      (table.filter (fun c => decide (colCount c.2 = n))).head?.map Prod.fst = some y := by
  intro h
  unfold searchVersionYear at h
  by_cases he : (table.filter (fun c => decide (colCount c.2 = n))).isEmpty
  · rw [if_pos he] at h; cases h
  · rw [if_neg he] at h
    by_cases h1 : (table.filter (fun c => decide (colCount c.2 = n))).length = 1
    · rw [if_pos h1] at h
      exact ⟨h1, h⟩
    · rw [if_neg h1] at h; cases h

/-- Claim C7: `extract_province_codes` / `extract_county_codes` raise
(return no result, modelled `none`) whenever the supplied name count
matches the name count of zero or of more than one era column, or when
any supplied normalized name resolves to no code in the matched era's
dictionary; a code list is returned only when a unique era matches and
every name resolves, and then it has one code per supplied name. -/
theorem extract_codes_all_or_nothing
    (table : List (String × List (String × Option String)))
    (items : List String) :
    ((table.filter (fun c => decide (colCount c.2 = items.length))).length ≠ 1 →
      extractCodes table items = none) ∧
    (∀ y c, searchVersionYear table items.length = some y →
      table.find? (fun c0 => decide (c0.1 = y)) = some c →
      (∃ it ∈ items,
        dictLookup (buildCodeMapping c.2) (normalizeTextStr it) = none) →
      extractCodes table items = none) ∧
    (∀ cs, extractCodes table items = some cs →
      (table.filter (fun c => decide (colCount c.2 = items.length))).length = 1 ∧
      ∃ y c, searchVersionYear table items.length = some y ∧
        table.find? (fun c0 => decide (c0.1 = y)) = some c ∧
        (∀ it ∈ items,
          (dictLookup (buildCodeMapping c.2) (normalizeTextStr it)).isSome = true) ∧
        cs = (items.map (fun it =>
          dictLookup (buildCodeMapping c.2) (normalizeTextStr it))).reduceOption ∧
        cs.length = items.length) := by
  refine ⟨?_, ?_, ?_⟩
  · intro hne
    have hs : searchVersionYear table items.length = none := by
      unfold searchVersionYear
      by_cases he : (table.filter (fun c => decide (colCount c.2 = items.length))).isEmpty
      · rw [if_pos he]
      · rw [if_neg he, if_neg hne]
    unfold extractCodes
    rw [hs, Option.none_bind]
  · intro y c hsearch hfind ⟨it, hit, hnone⟩
    unfold extractCodes
    rw [hsearch, Option.some_bind, hfind, Option.some_bind]
    have hall : (items.map (fun it =>
        dictLookup (buildCodeMapping c.2) (normalizeTextStr it))).all
          Option.isSome = false := by
      apply List.all_eq_false.mpr
      refine ⟨none, ?_, by simp⟩
      rw [← hnone]
      exact List.mem_map_of_mem _ hit
    simp only [hall, Bool.false_eq_true, if_false]
  · intro cs hcs
    unfold extractCodes at hcs
    cases hsearch : searchVersionYear table items.length with
    | none => rw [hsearch, Option.none_bind] at hcs; cases hcs
    | some y =>
      rw [hsearch, Option.some_bind] at hcs
      cases hfind : table.find? (fun c0 => decide (c0.1 = y)) with
      | none => rw [hfind, Option.none_bind] at hcs; cases hcs
      | some c =>
        rw [hfind, Option.some_bind] at hcs
        by_cases hall : (items.map (fun it =>
            dictLookup (buildCodeMapping c.2) (normalizeTextStr it))).all
              Option.isSome = true
        · rw [if_pos hall] at hcs
          injection hcs with hcs
          refine ⟨(searchVersionYear_eq_some table items.length y hsearch).1,
            y, c, rfl, hfind, ?_, hcs.symm, ?_⟩
          · intro it hit
            exact List.all_eq_true.mp hall _ (List.mem_map_of_mem _ hit)
          · rw [← hcs]
            rw [reduceOption_length_of_all_isSome _ hall, List.length_map]
        · rw [if_neg hall] at hcs
          cases hcs

/-- Witness for C7: a stored table with eras 1365 (one name) and 1375
(two names); one supplied name resolves through era 1365, and a
two-name call where one name is unknown raises. -/
theorem extract_codes_all_or_nothing_witness :
    (([("1365", [("00", some "x")]),
       ("1375", [("00", some "x"), ("01", some "y")])].filter
        (fun c => decide (colCount c.2 = (["x"] : List String).length))).length = 1 ∧
      ∃ y c, searchVersionYear
          [("1365", [("00", some "x")]),
           ("1375", [("00", some "x"), ("01", some "y")])]
          (["x"] : List String).length = some y ∧
        List.find? (fun c0 => decide (c0.1 = y))
          [("1365", [("00", some "x")]),
           ("1375", [("00", some "x"), ("01", some "y")])] = some c ∧
        (∀ it ∈ (["x"] : List String),
          (dictLookup (buildCodeMapping c.2) (normalizeTextStr it)).isSome = true) ∧
        (["00"] : List String) = ((["x"] : List String).map (fun it =>
          dictLookup (buildCodeMapping c.2) (normalizeTextStr it))).reduceOption ∧
        (["00"] : List String).length = (["x"] : List String).length) ∧
    extractCodes
      [("1365", [("00", some "x")]),
       ("1375", [("00", some "x"), ("01", some "y")])] ["x", "w", "z"] = none :=
  ⟨(extract_codes_all_or_nothing _ ["x"]).2.2 ["00"] (by decide),
   (extract_codes_all_or_nothing _ ["x", "w", "z"]).1 (by decide)⟩

/-! ### Claim C9: normalization idempotence -/

theorem mem_replaceChar {o n : Char} {s : List Char} {c : Char}
    (h : c ∈ replaceChar o n s) : c = n ∨ (c ≠ o ∧ c ∈ s) := by
  unfold replaceChar at h
  rcases List.mem_map.mp h with ⟨x, hx, hfx⟩
  by_cases hxo : x = o
  · left; rw [← hfx, hxo, if_pos rfl]
  · right
    rw [← hfx, if_neg hxo]
    exact ⟨hxo, hx⟩

theorem replaceChar_id (o n : Char) (s : List Char)
    (h : ∀ c ∈ s, c ≠ o) : replaceChar o n s = s := by
  unfold replaceChar
  rw [List.map_congr_left (fun c hc => if_neg (h c hc))]
  exact List.map_id s

theorem mem_foldl_replaceChar :
    ∀ (subs : List (Char × Char)) (s : List Char) (c : Char),
      c ∈ subs.foldl (fun acc p => replaceChar p.1 p.2 acc) s →
      (∃ p ∈ subs, c = p.2) ∨ c ∈ s := by
  intro subs
  induction subs with
  | nil => intro s c hc; exact Or.inr hc
  | cons p rest ih =>
    intro s c hc
    rw [List.foldl_cons] at hc
    rcases ih (replaceChar p.1 p.2 s) c hc with ⟨q, hq, hq2⟩ | hcs
    · exact Or.inl ⟨q, List.mem_cons_of_mem _ hq, hq2⟩
    · rcases mem_replaceChar hcs with h1 | ⟨-, h2⟩
      · exact Or.inl ⟨p, List.mem_cons_self _ _, h1⟩
      · exact Or.inr h2

theorem foldl_replaceChar_ne :
    ∀ (subs : List (Char × Char)) (s : List Char) (c : Char),
      c ∈ subs.foldl (fun acc p => replaceChar p.1 p.2 acc) s →
      ∀ p0 ∈ subs, (∀ q ∈ subs, q.2 ≠ p0.1) → c ≠ p0.1 := by
  intro subs
  induction subs with
  | nil => intro s c _ p0 hp0; cases hp0
  | cons p rest ih =>
    intro s c hc p0 hp0 htargets
    rw [List.foldl_cons] at hc
    rcases List.mem_cons.mp hp0 with rfl | hp0r
    · rcases mem_foldl_replaceChar rest _ c hc with ⟨q, hq, rfl⟩ | hcs
      · exact htargets q (List.mem_cons_of_mem _ hq)
      · rcases mem_replaceChar hcs with h1 | ⟨hne, -⟩
        · exact h1 ▸ htargets p0 (List.mem_cons_self _ _)
        · exact hne
    · exact ih (replaceChar p.1 p.2 s) c hc p0 hp0r
        (fun q hq => htargets q (List.mem_cons_of_mem _ hq))

theorem arabic_targets_not_sources :
    ∀ p ∈ ARABIC_SUBSTITUTIONS, ∀ q ∈ ARABIC_SUBSTITUTIONS, q.2 ≠ p.1 := by
  decide

theorem replaceArabic_not_source (s : List Char) (c : Char)
    (hc : c ∈ replaceArabicCharacters s) :
    ∀ p ∈ ARABIC_SUBSTITUTIONS, c ≠ p.1 := by
  intro p hp
  exact foldl_replaceChar_ne ARABIC_SUBSTITUTIONS s c hc p hp
    (arabic_targets_not_sources p hp)

theorem mem_collapseWs {c : Char} :
    ∀ {s : List Char}, c ∈ collapseWs s →
      c = Char.ofNat 32 ∨ (pyWs c = false ∧ c ∈ s) := by
  intro s
  induction s with
  | nil => intro h; simp [collapseWs] at h
  | cons x xs ih =>
    intro h
    rw [show collapseWs (x :: xs) =
        (if pyWs x then
          (if (collapseWs xs).head? = some (Char.ofNat 32) then collapseWs xs
           else Char.ofNat 32 :: collapseWs xs)
         else x :: collapseWs xs) from rfl] at h
    by_cases hx : pyWs x
    · rw [if_pos hx] at h
      by_cases hh : (collapseWs xs).head? = some (Char.ofNat 32)
      · rw [if_pos hh] at h
        rcases ih h with h1 | ⟨h2, h3⟩
        · exact Or.inl h1
        · exact Or.inr ⟨h2, List.mem_cons_of_mem _ h3⟩
      · rw [if_neg hh] at h
        rcases List.mem_cons.mp h with h1 | h1
        · exact Or.inl h1
        · rcases ih h1 with h2 | ⟨h3, h4⟩
          · exact Or.inl h2
          · exact Or.inr ⟨h3, List.mem_cons_of_mem _ h4⟩
    · rw [if_neg hx] at h
      rcases List.mem_cons.mp h with h1 | h1
      · refine Or.inr ⟨?_, h1 ▸ List.mem_cons_self _ _⟩
        rw [h1]
        exact Bool.not_eq_true _ ▸ (by simpa using hx)
      · rcases ih h1 with h2 | ⟨h3, h4⟩
        · exact Or.inl h2
        · exact Or.inr ⟨h3, List.mem_cons_of_mem _ h4⟩

theorem collapseWs_id :
    ∀ (s : List Char), (∀ c ∈ s, pyWs c = false) → collapseWs s = s := by
  intro s
  induction s with
  | nil => intro _; rfl
  | cons x xs ih =>
    intro h
    have hx : pyWs x = false := h x (List.mem_cons_self _ _)
    rw [show collapseWs (x :: xs) =
        (if pyWs x then
          (if (collapseWs xs).head? = some (Char.ofNat 32) then collapseWs xs
           else Char.ofNat 32 :: collapseWs xs)
         else x :: collapseWs xs) from rfl]
    rw [hx]
    simp only [Bool.false_eq_true, if_false]
    rw [ih (fun c hc => h c (List.mem_cons_of_mem _ hc))]

theorem mem_removeSpaceAfterParen {c : Char} :
    ∀ {s : List Char}, c ∈ removeSpaceAfterParen s → c ∈ s := by
  intro s
  induction s using removeSpaceAfterParen.induct with
  | case1 c1 c2 rest hcond ih =>
    intro h
    rw [show removeSpaceAfterParen (c1 :: c2 :: rest) =
        c1 :: removeSpaceAfterParen rest from by
      rw [removeSpaceAfterParen, if_pos hcond]] at h
    rcases List.mem_cons.mp h with rfl | h2
    · exact List.mem_cons_self _ _
    · exact List.mem_cons_of_mem _ (List.mem_cons_of_mem _ (ih h2))
  | case2 c1 c2 rest hcond ih =>
    intro h
    rw [show removeSpaceAfterParen (c1 :: c2 :: rest) =
        c1 :: removeSpaceAfterParen (c2 :: rest) from by
      rw [removeSpaceAfterParen, if_neg hcond]] at h
    rcases List.mem_cons.mp h with rfl | h2
    · exact List.mem_cons_self _ _
    · exact List.mem_cons_of_mem _ (ih h2)
  | case3 l hl =>
    intro h
    cases l with
    | nil => exact (show removeSpaceAfterParen ([] : List Char) = [] from rfl) ▸ h
    | cons c1 rest =>
      cases rest with
      | nil => exact (show removeSpaceAfterParen [c1] = [c1] from rfl) ▸ h
      | cons c2 rest2 => exact absurd rfl (hl c1 c2 rest2)

theorem mem_removeSpaceBeforeParen {c : Char} :
    ∀ {s : List Char}, c ∈ removeSpaceBeforeParen s → c ∈ s := by
  intro s
  induction s using removeSpaceBeforeParen.induct with
  | case1 c1 c2 rest hcond ih =>
    intro h
    rw [show removeSpaceBeforeParen (c1 :: c2 :: rest) =
        c2 :: removeSpaceBeforeParen rest from by
      rw [removeSpaceBeforeParen, if_pos hcond]] at h
    rcases List.mem_cons.mp h with rfl | h2
    · exact List.mem_cons_of_mem _ (List.mem_cons_self _ _)
    · exact List.mem_cons_of_mem _ (List.mem_cons_of_mem _ (ih h2))
  | case2 c1 c2 rest hcond ih =>
    intro h
    rw [show removeSpaceBeforeParen (c1 :: c2 :: rest) =
        c1 :: removeSpaceBeforeParen (c2 :: rest) from by
      rw [removeSpaceBeforeParen, if_neg hcond]] at h
    rcases List.mem_cons.mp h with rfl | h2
    · exact List.mem_cons_self _ _
    · exact List.mem_cons_of_mem _ (ih h2)
  | case3 l hl =>
    intro h
    cases l with
    | nil => exact (show removeSpaceBeforeParen ([] : List Char) = [] from rfl) ▸ h
    | cons c1 rest =>
      cases rest with
      | nil => exact (show removeSpaceBeforeParen [c1] = [c1] from rfl) ▸ h
      | cons c2 rest2 => exact absurd rfl (hl c1 c2 rest2)

theorem removeSpaceAfterParen_id :
    ∀ (s : List Char), (∀ c ∈ s, c ≠ Char.ofNat 32) →
      removeSpaceAfterParen s = s := by
  intro s
  induction s with
  | nil => intro _; rfl
  | cons c1 rest ih =>
    intro h
    cases rest with
    | nil => rfl
    | cons c2 rest2 =>
      have hc2 : c2 ≠ Char.ofNat 32 :=
        h c2 (List.mem_cons_of_mem _ (List.mem_cons_self _ _))
      rw [removeSpaceAfterParen, if_neg (fun hand => hc2 hand.2)]
      rw [ih (fun c hc => h c (List.mem_cons_of_mem _ hc))]

theorem removeSpaceBeforeParen_id :
    ∀ (s : List Char), (∀ c ∈ s, c ≠ Char.ofNat 32) →
      removeSpaceBeforeParen s = s := by
  intro s
  induction s with
  | nil => intro _; rfl
  | cons c1 rest ih =>
    intro h
    cases rest with
    | nil => rfl
    | cons c2 rest2 =>
      have hc1 : c1 ≠ Char.ofNat 32 := h c1 (List.mem_cons_self _ _)
      rw [removeSpaceBeforeParen, if_neg (fun hand => hc1 hand.1)]
      rw [ih (fun c hc => h c (List.mem_cons_of_mem _ hc))]

theorem mem_stripWs {c : Char} {s : List Char} (h : c ∈ stripWs s) : c ∈ s := by
  unfold stripWs at h
  rw [List.mem_reverse] at h
  have h2 : c ∈ (s.dropWhile pyWs).reverse :=
    (List.dropWhile_sublist pyWs).subset h
  rw [List.mem_reverse] at h2
  exact (List.dropWhile_sublist pyWs).subset h2

theorem dropWhile_eq_self_of_none (p : Char → Bool) :
    ∀ (s : List Char), (∀ c ∈ s, p c = false) → s.dropWhile p = s := by
  intro s h
  cases s with
  | nil => rfl
  | cons x xs =>
    rw [List.dropWhile_cons, h x (List.mem_cons_self _ _)]
    simp

theorem stripWs_id (s : List Char) (h : ∀ c ∈ s, pyWs c = false) :
    stripWs s = s := by
  unfold stripWs
  rw [dropWhile_eq_self_of_none pyWs s h]
  rw [dropWhile_eq_self_of_none pyWs s.reverse
    (fun c hc => h c (List.mem_reverse.mp hc))]
  exact List.reverse_reverse s

theorem normalizeText_chars (s : List Char) :
    ∀ c ∈ normalizeText s,
      pyWs c = false ∧ removalChars.contains c = false ∧
      (∀ p ∈ ARABIC_SUBSTITUTIONS, c ≠ p.1) ∧
      c ≠ Char.ofNat 8204 ∧ c ≠ Char.ofNat 1570 := by
  intro c hc
  unfold normalizeText at hc
  rw [List.mem_filter] at hc
  obtain ⟨hc1, hc2⟩ := hc
  have hcsp : c ≠ Char.ofNat 32 := by simpa using hc2
  rcases mem_replaceChar hc1 with rfl | ⟨hne1570, hcf⟩
  · refine ⟨?_, ?_, ?_, ?_, ?_⟩ <;> decide
  · unfold cleanFarsiText at hcf
    have hc3 := mem_stripWs hcf
    have hc4 := mem_removeSpaceBeforeParen hc3
    have hc5 := mem_removeSpaceAfterParen hc4
    rcases mem_collapseWs hc5 with rfl | ⟨hws, hc6⟩
    · exact absurd rfl hcsp
    · rw [List.mem_filter] at hc6
      obtain ⟨hc7, hrem⟩ := hc6
      have hremf : removalChars.contains c = false := by simpa using hrem
      rcases mem_replaceChar hc7 with rfl | ⟨hne8204, hc8⟩
      · exact absurd rfl hcsp
      · exact ⟨hws, hremf, replaceArabic_not_source s c hc8, hne8204, hne1570⟩

/-- Claim C9: `normalize_text` is idempotent — normalizing twice yields
the same string as normalizing once.  Every character of a normalized
string is whitespace-free, removal-free, substitution-source-free and
space-free, so every stage of a second pass is the identity. -/
theorem normalize_text_idempotent (x : String) :
    normalizeTextStr (normalizeTextStr x) = normalizeTextStr x := by
  have hmain : ∀ s : List Char, normalizeText (normalizeText s) = normalizeText s := by
    intro s
    have hch := normalizeText_chars s
    set z := normalizeText s with hz
    have h32 : ∀ c ∈ z, c ≠ Char.ofNat 32 := by
      intro c hc he
      have hws := (hch c hc).1
      rw [he] at hws
      exact absurd hws (by decide)
    show normalizeText z = z
    unfold normalizeText cleanFarsiText
    have e1 : replaceArabicCharacters z = z := by
      unfold replaceArabicCharacters ARABIC_SUBSTITUTIONS
      simp only [List.foldl_cons, List.foldl_nil]
      rw [replaceChar_id (Char.ofNat 1610) (Char.ofNat 1740) z
        (fun c hc => (hch c hc).2.2.1 (Char.ofNat 1610, Char.ofNat 1740) (by decide))]
      rw [replaceChar_id (Char.ofNat 1574) (Char.ofNat 1740) z
        (fun c hc => (hch c hc).2.2.1 (Char.ofNat 1574, Char.ofNat 1740) (by decide))]
      rw [replaceChar_id (Char.ofNat 1609) (Char.ofNat 1740) z
        (fun c hc => (hch c hc).2.2.1 (Char.ofNat 1609, Char.ofNat 1740) (by decide))]
      rw [replaceChar_id (Char.ofNat 1571) (Char.ofNat 1575) z
        (fun c hc => (hch c hc).2.2.1 (Char.ofNat 1571, Char.ofNat 1575) (by decide))]
      rw [replaceChar_id (Char.ofNat 1573) (Char.ofNat 1575) z
        (fun c hc => (hch c hc).2.2.1 (Char.ofNat 1573, Char.ofNat 1575) (by decide))]
      rw [replaceChar_id (Char.ofNat 1572) (Char.ofNat 1608) z
        (fun c hc => (hch c hc).2.2.1 (Char.ofNat 1572, Char.ofNat 1608) (by decide))]
      rw [replaceChar_id (Char.ofNat 1603) (Char.ofNat 1705) z
        (fun c hc => (hch c hc).2.2.1 (Char.ofNat 1603, Char.ofNat 1705) (by decide))]
      rw [replaceChar_id (Char.ofNat 1728) (Char.ofNat 1607) z
        (fun c hc => (hch c hc).2.2.1 (Char.ofNat 1728, Char.ofNat 1607) (by decide))]
      rw [replaceChar_id (Char.ofNat 1577) (Char.ofNat 1607) z
        (fun c hc => (hch c hc).2.2.1 (Char.ofNat 1577, Char.ofNat 1607) (by decide))]
    have e2 : replaceChar (Char.ofNat 8204) (Char.ofNat 32) z = z :=
      replaceChar_id _ _ z (fun c hc => (hch c hc).2.2.2.1)
    have e3 : z.filter (fun c => !(removalChars.contains c)) = z :=
      List.filter_eq_self.mpr (fun c hc => by simpa using (hch c hc).2.1)
    have e4 : collapseWs z = z := collapseWs_id z (fun c hc => (hch c hc).1)
    have e5 : removeSpaceAfterParen z = z := removeSpaceAfterParen_id z h32
    have e6 : removeSpaceBeforeParen z = z := removeSpaceBeforeParen_id z h32
    have e7 : stripWs z = z := stripWs_id z (fun c hc => (hch c hc).1)
    have e8 : replaceChar (Char.ofNat 1570) (Char.ofNat 1575) z = z :=
      replaceChar_id _ _ z (fun c hc => (hch c hc).2.2.2.2)
    have e9 : z.filter (fun c => !(c = Char.ofNat 32 : Bool)) = z :=
      List.filter_eq_self.mpr (fun c hc => by simpa using h32 c hc)
    rw [e1, e2, e3, e4, e5, e6, e7, e8, e9]
  unfold normalizeTextStr
  rw [hmain x.data]

end GDIVIR
